import Mathlib

/-!
# Sidebar menu persistence (`static/js/menu-persistence.js`)

A shallow embedding of the script that keeps the expand/collapse state of the
Docdock sidebar across page loads, and the properties of its four operations:
`saveMenuState`, `restoreMenuState`, `expandCurrentPath` and the click handler
bound to `.category-icon`.

## The DOM the script looks at

The script reaches the DOM only through these jQuery queries:

* `#sidebar .dd-item` elements, with or without the class `haschildren`, and
  their `data-nav-id` attribute;
* `$item.children('ul')`, the nested list of an item, and whether it is
  displayed;
* `$item.find('.category-icon')`, the icon elements inside an item, and their
  classes `fa-angle-down` (expanded) and `fa-angle-right` (collapsed).

The sidebar is therefore modelled as a forest of items.  An item without the
class `haschildren` has no icon and no nested list; an item with that class
has one icon and one nested list that contains the items below it, as the
theme renders them.  The `#sidebar` container itself is rendered, so a nested
list is `:visible` exactly when it and every list around it is displayed.

## What is computed and what is left to the platform

Line 25 splices the stored text, unescaped, into a selector, and line 9 reads
the attribute through `.data()`, which converts some texts to other values.
The embedding computes both where the outcome is settled by the text alone:

* a text without double quote, backslash, line break, form feed and NUL is
  taken literally by `[data-nav-id="..."]`: the selector is an equality test;
* a text of letters, digits and at least one double quote makes the selector
  ill-formed, and jQuery throws;
* an attribute text that begins with a letter or `/` and is not one of
  `true`, `false`, `null`, `NaN`, `Infinity` stays a string under `.data()`;
  the texts `null` and `{}` are converted to `null` and to an empty object.

For every other text the outcome is that of the `Platform` the functions take
as a parameter, about which nothing is assumed.
-/

namespace MenuPersistence

/-! ## Data model -/

/-- Classes of one `.category-icon` element: `down` is `fa-angle-down`, the
expanded marker, and `right` is `fa-angle-right`, the collapsed marker.  The
two are separate classes, so an element can carry both or neither. -/
structure Icon where
  down : Bool
  right : Bool
  deriving DecidableEq, Repr

/-- Sidebar forest: the `.dd-item` elements of one list, in document order.
`leaf` is an item without `haschildren`; `branch` is a `.dd-item.haschildren`
with its own icon, the display state of its own `ul`, the items inside that
`ul`, and then the siblings that follow it.  `navId` is the text of the
`data-nav-id` attribute, `none` when the item has no such attribute. -/
inductive Menu where
  | nil : Menu
  | leaf (navId : Option String) (rest : Menu) : Menu
  | branch (navId : Option String) (icon : Icon) (shown : Bool)
      (children : Menu) (rest : Menu) : Menu
  deriving DecidableEq, Repr

/-- Element of the array kept under `expandedMenus`, as `JSON.stringify`
writes it and `JSON.parse` returns it. -/
inductive Entry where
  /-- a string -/
  | str (s : String) : Entry
  /-- `null`, which is also what `undefined` and `NaN` are written as -/
  | null : Entry
  /-- a boolean, number, object or array `v`; `text` is the string `'' + v` -/
  | other (text : String) : Entry
  /-- an object that cannot be converted to a string: `'' + v` throws -/
  | unprintable : Entry
  deriving DecidableEq, Repr

/-- Text kept under the key `expandedMenus`, classified by what
`JSON.parse(sessionStorage.getItem('expandedMenus') || '[]')` does with it. -/
inductive StoredText where
  /-- the empty string, which is falsy and so replaced by `'[]'` -/
  | blank : StoredText
  /-- a non-empty text that is not JSON: `JSON.parse` throws -/
  | malformed : StoredText
  /-- the JSON text of a value that is not an array: it has no `forEach` -/
  | nonArray : StoredText
  /-- the JSON text of an array -/
  | array (entries : List Entry) : StoredText
  deriving DecidableEq, Repr

/-- Session storage as far as the script uses it: the value under
`expandedMenus`, `none` when the key is absent (`getItem` returns `null`). -/
abbrev Storage := Option StoredText

/-- Exceptions the script can raise: the `SyntaxError` of `JSON.parse`, a
`TypeError`, and the error jQuery throws for a selector it cannot read. -/
inductive JsError where
  | syntaxError : JsError
  | typeError : JsError
  | selectorError : JsError
  deriving DecidableEq, Repr

/-- What a selector picks around one has-children item. -/
structure Pick where
  /-- the `.dd-item` element itself -/
  item : Bool
  /-- an element inside the item, outside its `ul`, that holds its icon -/
  inside : Bool
  /-- the item's own `ul` -/
  list : Bool
  deriving DecidableEq, Repr

/-- Elements picked by a selector, as far as lines 27-32 can tell them apart:
`around` is an element that holds the whole sidebar list, `picks` has one
entry per has-children item in document order (a missing entry picks
nothing). -/
structure Selection where
  around : Bool
  picks : List Pick
  deriving DecidableEq, Repr

/-- The part of jQuery the embedding does not compute. -/
structure Platform where
  /-- entry written for the value `.data('nav-id')` makes of an attribute text
  that is not settled by `staysString` or one of the fixed texts -/
  convert : String → Entry
  /-- outcome of `$('#sidebar .dd-item[data-nav-id="' + text + '"]')` on the
  current DOM for a text that is neither plain nor surely ill-formed: an
  exception or the elements picked -/
  select : String → Menu → Except JsError Selection

/-- What the scan of `saveMenuState` sees of one `.dd-item.haschildren`. -/
structure Row where
  /-- text of the `data-nav-id` attribute -/
  navId : Option String
  /-- classes of the icon that belongs to the item itself -/
  icon : Icon
  /-- the item's own `ul` is displayed -/
  shown : Bool
  /-- value of `$item.children('ul').is(':visible')` -/
  visible : Bool
  /-- value of `$item.find('.category-icon').hasClass('fa-angle-down')` -/
  anyDown : Bool
  deriving DecidableEq, Repr

/-- Page state: the sidebar and the session storage entry. -/
structure Page where
  dom : Menu
  storage : Storage
  deriving DecidableEq, Repr

/-- End of a call of `restoreMenuState`: the DOM it leaves and the exception
it ended in, if any. -/
structure Run where
  dom : Menu
  thrown : Option JsError
  deriving DecidableEq, Repr

/-- End of lines 72-75: the page they leave and the exception that aborted
the ready callback, if any. -/
structure LoadRun where
  page : Page
  thrown : Option JsError
  deriving DecidableEq, Repr

/-! ## jQuery queries -/

/-- Value of `$icons.hasClass('fa-angle-down')` for the icons of a forest:
true when at least one of them carries the class. -/
def anyIconDown : Menu → Bool
  | .nil => false
  | .leaf _ rest => anyIconDown rest
  | .branch _ icon _ children rest => icon.down || anyIconDown children || anyIconDown rest

/-- Rows of `$('#sidebar .dd-item.haschildren')` in document order; `vis`
tells whether the list that holds the forest is visible. -/
def rows (vis : Bool) : Menu → List Row
  | .nil => []
  | .leaf _ rest => rows vis rest
  | .branch navId icon shown children rest =>
      { navId := navId, icon := icon, shown := shown, visible := vis && shown,
        anyDown := icon.down || anyIconDown children }
        :: (rows (vis && shown) children ++ rows vis rest)

/-- The `data-nav-id` values of `$('#sidebar .dd-item')` in document order. -/
def navIds : Menu → List (Option String)
  | .nil => []
  | .leaf navId rest => navId :: navIds rest
  | .branch navId _ _ children rest => navId :: (navIds children ++ navIds rest)

/-- Number of `.category-icon` elements, one per has-children item. -/
def iconCount : Menu → Nat
  | .nil => 0
  | .leaf _ rest => iconCount rest
  | .branch _ _ _ children rest => 1 + iconCount children + iconCount rest

/-- Attribute selector `[data-nav-id="v"]` for a value `v` given as such. -/
def attrEquals (v : String) (navId : Option String) : Bool :=
  navId == some v

/-- Whether `needle` occurs in `hay` as a contiguous run. -/
def occursIn (needle : List Char) : List Char → Bool
  | [] => needle.isEmpty
  | c :: cs => needle.isPrefixOf (c :: cs) || occursIn needle cs

/-- Attribute selector `[data-nav-id*="v"]`: the attribute is present and
contains `v`; an empty `v` selects nothing. -/
def attrContains (v : String) (navId : Option String) : Bool :=
  match navId with
  | none => false
  | some a => !v.data.isEmpty && occursIn v.data a.data

/-- Whether some `.dd-item` of the forest satisfies the selector `sel`. -/
def hasMatch (sel : Option String → Bool) : Menu → Bool
  | .nil => false
  | .leaf navId rest => sel navId || hasMatch sel rest
  | .branch navId _ _ children rest => sel navId || hasMatch sel children || hasMatch sel rest

/-- The text has no double quote (34), backslash (92), line feed (10),
carriage return (13), form feed (12) and NUL (0): between the quotes of
`[data-nav-id="..."]` it stands for itself. -/
def isPlain (text : String) : Bool :=
  text.data.all (fun c =>
    !(c.toNat == 34 || c.toNat == 92 || c.toNat == 10 || c.toNat == 13 || c.toNat == 12
      || c.toNat == 0))

/-- The text is made of ASCII letters, digits and double quotes and has a
double quote: in `[data-nav-id="..."]` the value ends at that quote and a
letter, a digit or a second string follows it inside the brackets, which no
selector grammar accepts. -/
def isBroken (text : String) : Bool :=
  text.data.all (fun c => c.isAlphanum || c.toNat == 34) && text.data.any (fun c => c.toNat == 34)

/-- The attribute text begins with a letter or `/` and is none of the words
`.data()` converts: it is not the text of a number, it does not begin with a
brace or bracket, so `.data('nav-id')` is the text itself. -/
def staysString (a : String) : Bool :=
  !(a == "true" || a == "false" || a == "null" || a == "NaN" || a == "Infinity") &&
    match a.data with
    | [] => false
    | c :: _ => c.isAlpha || c.toNat == 47

/-- What line 25 makes of a stored text. -/
inductive Query where
  /-- the selector `[data-nav-id="..."]` with the value `v` -/
  | equals (v : String) : Query
  /-- an ill-formed selector: jQuery throws -/
  | invalid : Query
  /-- a selector whose reading is the platform's -/
  | unsettled : Query
  deriving DecidableEq, Repr

/-- Reading of `'#sidebar .dd-item[data-nav-id="' + text + '"]'`. -/
def classify (text : String) : Query :=
  if isPlain text then .equals text
  else if isBroken text then .invalid
  else .unsettled

/-! ## jQuery mutations -/

/-- The icon after `.removeClass('fa-angle-right').addClass('fa-angle-down')`. -/
def Icon.expand (_ : Icon) : Icon := { down := true, right := false }

/-- The icon after `.toggleClass("fa-angle-down fa-angle-right")`. -/
def Icon.toggle (i : Icon) : Icon := { down := !i.down, right := !i.right }

/-- Apply `.removeClass('fa-angle-right').addClass('fa-angle-down')` to every
icon of the forest, as `$item.find('.category-icon')` selects them all. -/
def expandIcons : Menu → Menu
  | .nil => .nil
  | .leaf navId rest => .leaf navId (expandIcons rest)
  | .branch navId icon shown children rest =>
      .branch navId icon.expand shown (expandIcons children) (expandIcons rest)

/-- Lines 27-32 for the items selected by `[data-nav-id="key"]`: each gets
its own `ul` shown and all icons inside it set to the expanded class. -/
def restoreEqual (key : String) : Menu → Menu
  | .nil => .nil
  | .leaf navId rest => .leaf navId (restoreEqual key rest)
  | .branch navId icon shown children rest =>
      if attrEquals key navId then
        .branch navId icon.expand true (expandIcons (restoreEqual key children))
          (restoreEqual key rest)
      else
        .branch navId icon shown (restoreEqual key children) (restoreEqual key rest)

/-- Lines 27-32 for picked elements: `children('ul').show()` shows the own
list of a picked item, and `find('.category-icon')` reaches the icon of a
has-children item when the item, an element inside it that holds the icon, or
an element around the item is picked (`under`).  The picks are read in
document order. -/
def applyPicks (under : Bool) : List Pick → Menu → Menu
  | _, .nil => .nil
  | picks, .leaf navId rest => .leaf navId (applyPicks under picks rest)
  | picks, .branch navId icon shown children rest =>
      .branch navId
        (if under || (picks.headD ⟨false, false, false⟩).item
            || (picks.headD ⟨false, false, false⟩).inside then icon.expand else icon)
        (shown || (picks.headD ⟨false, false, false⟩).item)
        (applyPicks (under || (picks.headD ⟨false, false, false⟩).item
            || (picks.headD ⟨false, false, false⟩).list) picks.tail children)
        (applyPicks under (picks.tail.drop (iconCount children)) rest)

/-! ## The script -/

/-- The test of line 13 on a row:
`$ul.is(':visible') && $icon.hasClass('fa-angle-down')`. -/
def Row.expanded (r : Row) : Bool := r.visible && r.anyDown

/-- Line 9 and line 17: the entry written for `$item.data('nav-id')`.  A
missing attribute gives `undefined`, written as `null`. -/
def dataEntry (P : Platform) : Option String → Entry
  | none => .null
  | some a =>
      if staysString a then .str a
      else if a == "null" then .null
      else if a == "\x7b\x7d" then .other "[object Object]"
      else P.convert a

/-- Lines 6-16: the array `saveMenuState` writes, in scan order. -/
def expandedMenus (P : Platform) (dom : Menu) : List Entry :=
  ((rows true dom).filter Row.expanded).map (fun r => dataEntry P r.navId)

/-- Function `saveMenuState` (lines 5-18): the storage entry after the call. -/
def saveMenuState (P : Platform) (dom : Menu) (_prior : Storage) : Storage :=
  some (.array (expandedMenus P dom))

/-- Text that `'...[data-nav-id="' + navId + '"]'` splices in for an array
element: a string as it is, `null` as the text `null`. -/
def entryText : Entry → Except JsError String
  | .str s => .ok s
  | .null => .ok "null"
  | .other text => .ok text
  | .unprintable => .error .typeError

/-- Lines 25-33 for the text spliced into the selector: the DOM after them,
or the exception of line 25. -/
def restoreOne (P : Platform) (text : String) (dom : Menu) : Except JsError Menu :=
  match classify text with
  | .equals v => .ok (restoreEqual v dom)
  | .invalid => .error .selectorError
  | .unsettled =>
      match P.select text dom with
      | .ok sel => .ok (applyPicks sel.around sel.picks dom)
      | .error e => .error e

/-- Lines 24-34: the `forEach` loop over the parsed array.  An exception ends
the loop and leaves the DOM as the earlier iterations made it. -/
def restoreLoop (P : Platform) : List Entry → Menu → Run
  | [], dom => { dom := dom, thrown := none }
  | e :: es, dom =>
      match entryText e with
      | .error err => { dom := dom, thrown := some err }
      | .ok text =>
          match restoreOne P text dom with
          | .error err => { dom := dom, thrown := some err }
          | .ok d => restoreLoop P es d

/-- Function `restoreMenuState` (lines 21-35).  `JSON.parse` and the lookup of
`forEach` run before the DOM is touched. -/
def restoreMenuState (P : Platform) (storage : Storage) (dom : Menu) : Run :=
  match storage with
  | none => restoreLoop P [] dom
  | some .blank => restoreLoop P [] dom
  | some .malformed => { dom := dom, thrown := some .syntaxError }
  | some .nonArray => { dom := dom, thrown := some .typeError }
  | some (.array entries) => restoreLoop P entries dom

/-- The `.each` of lines 44-51 on a forest: every has-children item that has
an item selected by `sel` below it gets its own `ul` shown and all icons
inside it set to the expanded class. -/
def expandParents (sel : Option String → Bool) : Menu → Menu
  | .nil => .nil
  | .leaf navId rest => .leaf navId (expandParents sel rest)
  | .branch navId icon shown children rest =>
      if hasMatch sel children then
        .branch navId icon.expand true (expandIcons (expandParents sel children))
          (expandParents sel rest)
      else
        .branch navId icon shown (expandParents sel children) (expandParents sel rest)

/-- Function `expandCurrentPath` (lines 38-53) for `window.location.pathname`
equal to `currentUrl`.  A pathname is percent-encoded by the browser and has
no double quote, backslash or line break, so the selector of line 40 takes it
literally. -/
def expandCurrentPath (currentUrl : String) (dom : Menu) : Menu :=
  if hasMatch (attrContains currentUrl) dom then
    expandParents (attrContains currentUrl) dom
  else dom

/-- Lines 57-63: toggle the classes of the `k`-th `.category-icon` (document
order) and the display of the `ul` of the item that holds it. -/
def toggleAt : Nat → Menu → Menu
  | _, .nil => .nil
  | k, .leaf navId rest => .leaf navId (toggleAt k rest)
  | 0, .branch navId icon shown children rest =>
      .branch navId icon.toggle (!shown) children rest
  | k + 1, .branch navId icon shown children rest =>
      if k < iconCount children then
        .branch navId icon shown (toggleAt k children) rest
      else
        .branch navId icon shown children (toggleAt (k - iconCount children) rest)

/-- Click handler of lines 56-69 on the `k`-th `.category-icon`: toggle, then
`saveMenuState()`.  Without such an icon there is no event. -/
def click (P : Platform) (k : Nat) (p : Page) : Page :=
  if k < iconCount p.dom then
    { dom := toggleAt k p.dom, storage := saveMenuState P (toggleAt k p.dom) p.storage }
  else p

/-- Lines 72-75: `restoreMenuState()` followed by `expandCurrentPath()`; an
exception of the first aborts the ready callback. -/
def pageLoad (P : Platform) (currentUrl : String) (p : Page) : LoadRun :=
  match (restoreMenuState P p.storage p.dom).thrown with
  | none =>
      { page := { dom := expandCurrentPath currentUrl (restoreMenuState P p.storage p.dom).dom,
                  storage := p.storage },
        thrown := none }
  | some e =>
      { page := { dom := (restoreMenuState P p.storage p.dom).dom, storage := p.storage },
        thrown := some e }

/-! ## Relations used to state the properties -/

/-- Forest `m'` has the shape and identifiers of `m`, every list displayed in
`m` is displayed in `m'`, every icon with the expanded class in `m` has it in
`m'`, and no icon has the collapsed class in `m'` without having it in `m`. -/
def Grows : Menu → Menu → Prop
  | .nil, .nil => True
  | .leaf a r, .leaf a' r' => a' = a ∧ Grows r r'
  | .branch a i s c r, .branch a' i' s' c' r' =>
      a' = a ∧ (i.down = true → i'.down = true) ∧ (i'.right = true → i.right = true) ∧
        (s = true → s' = true) ∧ Grows c c' ∧ Grows r r'
  | _, _ => False

/-- Row `r'` is the row `r` after a step that only expands: same identifier,
and display, visibility and expanded classes are kept. -/
def Row.Kept (r r' : Row) : Prop :=
  r'.navId = r.navId ∧ (r.shown = true → r'.shown = true) ∧
    (r.icon.down = true → r'.icon.down = true) ∧
    (r'.icon.right = true → r.icon.right = true) ∧
    (r.visible = true → r'.visible = true) ∧ (r.anyDown = true → r'.anyDown = true)

/-- The row shows its own list, and its own icon has the expanded class and
not the collapsed one. -/
def Row.forcedOpen (r : Row) : Prop :=
  r.shown = true ∧ r.icon.down = true ∧ r.icon.right = false

/-- Every has-children item has its own list displayed exactly when its own
icon carries the expanded class. -/
def Synced (dom : Menu) : Bool :=
  (rows true dom).all (fun r => r.shown == r.icon.down)

/-- For each has-children item, in document order, whether an item selected
by `sel` lies below it: the item is then among
`$currentItem.parents('.dd-item.haschildren')`. -/
def aboveMatch (sel : Option String → Bool) : Menu → List Bool
  | .nil => []
  | .leaf _ rest => aboveMatch sel rest
  | .branch _ _ _ children rest =>
      hasMatch sel children :: (aboveMatch sel children ++ aboveMatch sel rest)

/-- The same sidebar as the server renders it for a page outside it: every
nested list hidden and every icon with the collapsed class only. -/
def collapse : Menu → Menu
  | .nil => .nil
  | .leaf navId rest => .leaf navId (collapse rest)
  | .branch navId _ _ children rest =>
      .branch navId { down := false, right := true } false (collapse children) (collapse rest)

/-- One pass that does what a run of `restoreEqual` calls does: `hit` tells
which identifiers are selected, `under` whether the forest lies inside a
selected item. -/
def restoreSet (hit : Option String → Bool) (under : Bool) : Menu → Menu
  | .nil => .nil
  | .leaf navId rest => .leaf navId (restoreSet hit under rest)
  | .branch navId icon shown children rest =>
      .branch navId (if under || hit navId then icon.expand else icon) (shown || hit navId)
        (restoreSet hit (under || hit navId) children) (restoreSet hit under rest)

/-- The loop of lines 24-34 over texts that are all read as equality tests. -/
def restoreEqualAll (texts : List String) (dom : Menu) : Menu :=
  texts.foldl (fun d text => restoreEqual text d) dom

/-- Identifier that `.data()` keeps as the string it is and that the selector
of line 25 takes literally. -/
def plainId (a : String) : Bool := staysString a && isPlain a

/-- Every has-children item carries a `data-nav-id` that is a `plainId`. -/
def idsPlain (dom : Menu) : Bool :=
  (rows true dom).all (fun r =>
    match r.navId with
    | some a => plainId a
    | none => false)

/-! ## Sample sidebars -/

/-- Collapsed three-level menu: `/g/` holds `/g/p/`, which holds the page
`/g/p/l/`. -/
def threeLevel : Menu :=
  .branch (some "/g/") ⟨false, true⟩ false
    (.branch (some "/g/p/") ⟨false, true⟩ false (.leaf (some "/g/p/l/") .nil) .nil) .nil

/-- Collapsed four-level menu: `/g/` holds `/g/p/`, which holds `/g/p/c/`,
which holds the page `/g/p/c/l/`. -/
def fourLevel : Menu :=
  .branch (some "/g/") ⟨false, true⟩ false
    (.branch (some "/g/p/") ⟨false, true⟩ false
      (.branch (some "/g/p/c/") ⟨false, true⟩ false (.leaf (some "/g/p/c/l/") .nil) .nil)
      .nil) .nil

/-- Collapsed menu with two sections below `/g/`: `/g/p/` with the page
`/g/p/l/` and `/g/q/` with the page `/g/q/l/`. -/
def twoSections : Menu :=
  .branch (some "/g/") ⟨false, true⟩ false
    (.branch (some "/g/p/") ⟨false, true⟩ false (.leaf (some "/g/p/l/") .nil)
      (.branch (some "/g/q/") ⟨false, true⟩ false (.leaf (some "/g/q/l/") .nil) .nil)) .nil

/-- One expanded has-children item that has no `data-nav-id`. -/
def withoutId : Menu :=
  .branch none ⟨true, false⟩ true (.leaf (some "/a/x/") .nil) .nil

/-- Two has-children items with the same `data-nav-id`, the first expanded
and the second collapsed. -/
def sameId : Menu :=
  .branch (some "/a/") ⟨true, false⟩ true (.leaf (some "/a/x/") .nil)
    (.branch (some "/a/") ⟨false, true⟩ false (.leaf (some "/a/y/") .nil) .nil)

/-- Menu with `/g/` and, inside it, `/g/p/`, both expanded. -/
def twoOpen : Menu :=
  .branch (some "/g/") ⟨true, false⟩ true
    (.branch (some "/g/p/") ⟨true, false⟩ true (.leaf (some "/g/p/l/") .nil) .nil)
    (.branch (some "/h/") ⟨false, true⟩ false (.leaf (some "/h/l/") .nil) .nil)

/-- One expanded has-children item whose `data-nav-id` is the text of an
empty JSON object. -/
def braceId : Menu :=
  .branch (some "\x7b\x7d") ⟨true, false⟩ true (.leaf (some "/a/x/") .nil) .nil

/-- One expanded has-children item whose `data-nav-id` holds a double quote
between the letters `a` and `b`. -/
def quoteId : Menu :=
  .branch (some "a\"b") ⟨true, false⟩ true (.leaf (some "/a/x/") .nil) .nil

/-- Platform of the closed examples: it keeps an attribute text as a string
and picks nothing.  The examples hold settled texts only, for which no
platform is asked. -/
def quiet : Platform :=
  { convert := fun a => .str a, select := fun _ _ => .ok { around := false, picks := [] } }

/-! ## Lemmas on the relations -/

theorem grows_refl (m : Menu) : Grows m m := by
  induction m with
  | nil => simp [Grows]
  | leaf a r ih => simp [Grows, ih]
  | branch a i s c r ihc ihr => simp [Grows, ihc, ihr]

theorem grows_trans : ∀ (m₁ m₂ m₃ : Menu), Grows m₁ m₂ → Grows m₂ m₃ → Grows m₁ m₃ := by
  intro m₁
  induction m₁ with
  | nil =>
      intro m₂ m₃ h₁ h₂
      cases m₂ <;> cases m₃ <;> simp_all [Grows]
  | leaf a r ih =>
      intro m₂ m₃ h₁ h₂
      cases m₂ with
      | nil => simp [Grows] at h₁
      | branch => simp [Grows] at h₁
      | leaf a₂ r₂ =>
          cases m₃ with
          | nil => simp [Grows] at h₂
          | branch => simp [Grows] at h₂
          | leaf a₃ r₃ =>
              simp only [Grows] at h₁ h₂ ⊢
              exact ⟨h₂.1.trans h₁.1, ih _ _ h₁.2 h₂.2⟩
  | branch a i s c r ihc ihr =>
      intro m₂ m₃ h₁ h₂
      cases m₂ with
      | nil => simp [Grows] at h₁
      | leaf => simp [Grows] at h₁
      | branch a₂ i₂ s₂ c₂ r₂ =>
          cases m₃ with
          | nil => simp [Grows] at h₂
          | leaf => simp [Grows] at h₂
          | branch a₃ i₃ s₃ c₃ r₃ =>
              simp only [Grows] at h₁ h₂ ⊢
              obtain ⟨ha, hd, hr, hs, hc, hrest⟩ := h₁
              obtain ⟨ha', hd', hr', hs', hc', hrest'⟩ := h₂
              exact ⟨ha'.trans ha, fun h => hd' (hd h), fun h => hr (hr' h),
                fun h => hs' (hs h), ihc _ _ hc hc', ihr _ _ hrest hrest'⟩

theorem grows_expandIcons (m : Menu) : Grows m (expandIcons m) := by
  induction m with
  | nil => simp [Grows, expandIcons]
  | leaf a r ih => simp [Grows, expandIcons, ih]
  | branch a i s c r ihc ihr => simp [Grows, expandIcons, Icon.expand, ihc, ihr]

theorem grows_restoreEqual (key : String) (m : Menu) : Grows m (restoreEqual key m) := by
  induction m with
  | nil => simp [Grows, restoreEqual]
  | leaf a r ih => simp [Grows, restoreEqual, ih]
  | branch a i s c r ihc ihr =>
      unfold restoreEqual
      split
      · rw [Grows]
        exact ⟨rfl, fun _ => rfl, fun h => by simp [Icon.expand] at h, fun _ => rfl,
          grows_trans _ _ _ ihc (grows_expandIcons _), ihr⟩
      · rw [Grows]
        exact ⟨rfl, id, id, id, ihc, ihr⟩


theorem grows_expandParents (sel : Option String → Bool) (m : Menu) :
    Grows m (expandParents sel m) := by
  induction m with
  | nil => simp [Grows, expandParents]
  | leaf a r ih => simp [Grows, expandParents, ih]
  | branch a i s c r ihc ihr =>
      unfold expandParents
      split
      · rw [Grows]
        exact ⟨rfl, fun _ => rfl, fun h => by simp [Icon.expand] at h, fun _ => rfl,
          grows_trans _ _ _ ihc (grows_expandIcons _), ihr⟩
      · rw [Grows]
        exact ⟨rfl, id, id, id, ihc, ihr⟩

theorem grows_expandCurrentPath (url : String) (m : Menu) :
    Grows m (expandCurrentPath url m) := by
  unfold expandCurrentPath
  split
  · exact grows_expandParents _ m
  · exact grows_refl m

theorem anyIconDown_of_grows : ∀ (m m' : Menu), Grows m m' →
    anyIconDown m = true → anyIconDown m' = true := by
  intro m
  induction m with
  | nil => intro m' h; cases m' <;> simp_all [Grows, anyIconDown]
  | leaf a r ih =>
      intro m' h
      cases m' with
      | nil => simp [Grows] at h
      | branch => simp [Grows] at h
      | leaf a' r' =>
          simp only [Grows] at h
          simp only [anyIconDown]
          exact ih _ h.2
  | branch a i s c r ihc ihr =>
      intro m' h
      cases m' with
      | nil => simp [Grows] at h
      | leaf => simp [Grows] at h
      | branch a' i' s' c' r' =>
          simp only [Grows] at h
          obtain ⟨_, hd, _, _, hc, hr⟩ := h
          simp only [anyIconDown, Bool.or_eq_true]
          rintro ((h | h) | h)
          · exact Or.inl (Or.inl (hd h))
          · exact Or.inl (Or.inr (ihc _ hc h))
          · exact Or.inr (ihr _ hr h)

theorem rows_kept_of_grows : ∀ (m m' : Menu) (vis vis' : Bool), Grows m m' →
    (vis = true → vis' = true) →
    List.Forall₂ Row.Kept (rows vis m) (rows vis' m') := by
  intro m
  induction m with
  | nil =>
      intro m' vis vis' h _
      cases m' with
      | nil => simp [rows]
      | leaf => simp [Grows] at h
      | branch => simp [Grows] at h
  | leaf a r ih =>
      intro m' vis vis' h hv
      cases m' with
      | nil => simp [Grows] at h
      | branch => simp [Grows] at h
      | leaf a' r' =>
          simp only [Grows] at h
          simp only [rows]
          exact ih _ _ _ h.2 hv
  | branch a i s c r ihc ihr =>
      intro m' vis vis' h hv
      cases m' with
      | nil => simp [Grows] at h
      | leaf => simp [Grows] at h
      | branch a' i' s' c' r' =>
          simp only [Grows] at h
          obtain ⟨ha, hd, hrt, hs, hc, hr⟩ := h
          have hvs : (vis && s) = true → (vis' && s') = true := by
            simp only [Bool.and_eq_true]
            exact fun h => ⟨hv h.1, hs h.2⟩
          simp only [rows]
          refine List.Forall₂.cons ?_ (List.rel_append (ihc _ _ _ hc hvs) (ihr _ _ _ hr hv))
          refine ⟨ha, hs, hd, hrt, hvs, ?_⟩
          simp only [Bool.or_eq_true]
          rintro (h | h)
          · exact Or.inl (hd h)
          · exact Or.inr (anyIconDown_of_grows _ _ hc h)

/-! ## Stored identifiers without an item -/

theorem navIds_expandIcons (m : Menu) : navIds (expandIcons m) = navIds m := by
  induction m with
  | nil => rfl
  | leaf a r ih => simp [expandIcons, navIds, ih]
  | branch a i s c r ihc ihr => simp [expandIcons, navIds, ihc, ihr]

theorem navIds_restoreEqual (key : String) (m : Menu) : navIds (restoreEqual key m) = navIds m := by
  induction m with
  | nil => rfl
  | leaf a r ih => simp [restoreEqual, navIds, ih]
  | branch a i s c r ihc ihr =>
      unfold restoreEqual
      split <;> simp [navIds, navIds_expandIcons, ihc, ihr]

theorem restoreEqual_of_not_mem (key : String) (m : Menu) (h : some key ∉ navIds m) :
    restoreEqual key m = m := by
  induction m with
  | nil => rfl
  | leaf a r ih =>
      simp only [navIds, List.mem_cons, not_or] at h
      simp [restoreEqual, ih h.2]
  | branch a i s c r ihc ihr =>
      simp only [navIds, List.mem_cons, List.mem_append, not_or] at h
      obtain ⟨ha, hc, hr⟩ := h
      have hne : attrEquals key a = false := by
        simp only [attrEquals, beq_eq_false_iff_ne, ne_eq]
        exact fun h => ha h.symm
      simp [restoreEqual, hne, ihc hc, ihr hr]

/-! ## Steps of the restore loop -/

theorem grows_applyPicks : ∀ (m : Menu) (under : Bool) (picks : List Pick),
    Grows m (applyPicks under picks m) := by
  intro m
  induction m with
  | nil => intro under picks; simp [Grows, applyPicks]
  | leaf a r ih => intro under picks; simp [Grows, applyPicks, ih]
  | branch a i s c r ihc ihr =>
      intro under picks
      simp only [applyPicks]
      rw [Grows]
      refine ⟨rfl, ?_, ?_, ?_, ihc _ _, ihr _ _⟩
      · intro h
        split
        · rfl
        · exact h
      · intro h
        split at h
        · simp [Icon.expand] at h
        · exact h
      · intro h
        simp [h]

theorem restoreOne_plain (P : Platform) (text : String) (m : Menu)
    (h : isPlain text = true) : restoreOne P text m = .ok (restoreEqual text m) := by
  simp [restoreOne, classify, h]

theorem grows_restoreOne (P : Platform) (text : String) (m d : Menu)
    (h : restoreOne P text m = .ok d) : Grows m d := by
  unfold restoreOne at h
  split at h
  · injection h with h
    rw [← h]
    exact grows_restoreEqual _ m
  · cases h
  · split at h
    · injection h with h
      rw [← h]
      exact grows_applyPicks m _ _
    · cases h

theorem restoreLoop_cons_unprintable (P : Platform) (e : Entry) (es : List Entry) (m : Menu)
    (err : JsError) (he : entryText e = .error err) :
    restoreLoop P (e :: es) m = { dom := m, thrown := some err } := by
  simp [restoreLoop, he]

theorem restoreLoop_cons_throw (P : Platform) (e : Entry) (es : List Entry) (m : Menu)
    (text : String) (err : JsError) (he : entryText e = .ok text)
    (h : restoreOne P text m = .error err) :
    restoreLoop P (e :: es) m = { dom := m, thrown := some err } := by
  simp [restoreLoop, he, h]

theorem restoreLoop_cons_ok (P : Platform) (e : Entry) (es : List Entry) (m d : Menu)
    (text : String) (he : entryText e = .ok text) (h : restoreOne P text m = .ok d) :
    restoreLoop P (e :: es) m = restoreLoop P es d := by
  simp [restoreLoop, he, h]

theorem grows_restoreLoop (P : Platform) : ∀ (entries : List Entry) (m : Menu),
    Grows m (restoreLoop P entries m).dom := by
  intro entries
  induction entries with
  | nil => intro m; exact grows_refl m
  | cons e es ih =>
      intro m
      cases he : entryText e with
      | error err =>
          rw [restoreLoop_cons_unprintable P e es m err he]
          exact grows_refl m
      | ok text =>
          cases h : restoreOne P text m with
          | error err =>
              rw [restoreLoop_cons_throw P e es m text err he h]
              exact grows_refl m
          | ok d =>
              rw [restoreLoop_cons_ok P e es m d text he h]
              exact grows_trans _ _ _ (grows_restoreOne P text m d h) (ih d)

theorem grows_restoreMenuState (P : Platform) (storage : Storage) (m : Menu) :
    Grows m (restoreMenuState P storage m).dom := by
  cases storage with
  | none => exact grows_refl m
  | some st =>
      cases st with
      | blank => exact grows_refl m
      | malformed => exact grows_refl m
      | nonArray => exact grows_refl m
      | array entries => exact grows_restoreLoop P entries m

theorem navIds_of_grows : ∀ (m m' : Menu), Grows m m' → navIds m' = navIds m := by
  intro m
  induction m with
  | nil =>
      intro m' h
      cases m' with
      | nil => rfl
      | leaf => simp [Grows] at h
      | branch => simp [Grows] at h
  | leaf a r ih =>
      intro m' h
      cases m' with
      | nil => simp [Grows] at h
      | branch => simp [Grows] at h
      | leaf a' r' =>
          rw [Grows] at h
          simp [navIds, h.1, ih _ h.2]
  | branch a i s c r ihc ihr =>
      intro m' h
      cases m' with
      | nil => simp [Grows] at h
      | leaf => simp [Grows] at h
      | branch a' i' s' c' r' =>
          rw [Grows] at h
          obtain ⟨ha, _, _, _, hc, hr⟩ := h
          simp [navIds, ha, ihc _ hc, ihr _ hr]

theorem restoreLoop_str_plain (P : Platform) : ∀ (texts : List String) (m : Menu),
    (∀ t ∈ texts, isPlain t = true) →
    restoreLoop P (texts.map Entry.str) m = { dom := restoreEqualAll texts m, thrown := none } := by
  intro texts
  induction texts with
  | nil => intro m _; rfl
  | cons t ts ih =>
      intro m h
      have ht : isPlain t = true := h t (List.mem_cons_self _ _)
      rw [List.map_cons, restoreLoop_cons_ok P (.str t) _ m (restoreEqual t m) t rfl
        (restoreOne_plain P t m ht)]
      exact ih _ (fun u hu => h u (List.mem_cons_of_mem _ hu))

theorem restoreLoop_insert_stale (P : Platform) (x : String) (after : List Entry)
    (hplain : isPlain x = true) : ∀ (before : List Entry) (m : Menu),
    some x ∉ navIds m →
    restoreLoop P (before ++ Entry.str x :: after) m = restoreLoop P (before ++ after) m := by
  intro before
  induction before with
  | nil =>
      intro m hx
      rw [List.nil_append, List.nil_append,
        restoreLoop_cons_ok P (.str x) after m (restoreEqual x m) x rfl
          (restoreOne_plain P x m hplain),
        restoreEqual_of_not_mem x m hx]
  | cons e es ih =>
      intro m hx
      rw [List.cons_append, List.cons_append]
      cases he : entryText e with
      | error err =>
          rw [restoreLoop_cons_unprintable P e _ m err he,
            restoreLoop_cons_unprintable P e _ m err he]
      | ok text =>
          cases h : restoreOne P text m with
          | error err =>
              rw [restoreLoop_cons_throw P e _ m text err he h,
                restoreLoop_cons_throw P e _ m text err he h]
          | ok d =>
              rw [restoreLoop_cons_ok P e _ m d text he h,
                restoreLoop_cons_ok P e _ m d text he h]
              apply ih d
              rw [navIds_of_grows m d (grows_restoreOne P text m d h)]
              exact hx

theorem restoreEqualAll_of_stale (stale : List String) (m : Menu)
    (h : ∀ y ∈ stale, some y ∉ navIds m) : restoreEqualAll stale m = m := by
  induction stale with
  | nil => rfl
  | cons y ys ih =>
      have hy : restoreEqual y m = m :=
        restoreEqual_of_not_mem y m (h y (List.mem_cons_self _ _))
      show restoreEqualAll ys (restoreEqual y m) = m
      rw [hy]
      exact ih (fun z hz => h z (List.mem_cons_of_mem _ hz))

theorem grows_restoreEqualAll (texts : List String) (m : Menu) :
    Grows m (restoreEqualAll texts m) := by
  induction texts generalizing m with
  | nil => exact grows_refl m
  | cons t ts ih => exact grows_trans _ _ _ (grows_restoreEqual t m) (ih _)

/-! ## Items forced open -/

theorem forall₂_chain {α β γ : Type} {R : α → β → Prop} {S : β → γ → Prop}
    {T : α → γ → Prop} (h : ∀ a b c, R a b → S b c → T a c) :
    ∀ (l₁ : List α) (l₂ : List β) (l₃ : List γ),
      List.Forall₂ R l₁ l₂ → List.Forall₂ S l₂ l₃ → List.Forall₂ T l₁ l₃ := by
  intro l₁
  induction l₁ with
  | nil =>
      intro l₂ l₃ h₁ h₂
      cases h₁
      cases h₂
      exact List.Forall₂.nil
  | cons a l₁ ih =>
      intro l₂ l₃ h₁ h₂
      cases h₁ with
      | cons hab h₁ =>
          cases h₂ with
          | cons hbc h₂ => exact List.Forall₂.cons (h _ _ _ hab hbc) (ih _ _ h₁ h₂)

theorem forcedOpen_of_kept {r r' : Row} (h : r.forcedOpen) (hk : Row.Kept r r') :
    r'.forcedOpen := by
  obtain ⟨hs, hd, hr⟩ := h
  obtain ⟨_, ks, kd, kr, _, _⟩ := hk
  refine ⟨ks hs, kd hd, ?_⟩
  cases hright : r'.icon.right with
  | false => rfl
  | true => rw [kr hright] at hr; exact absurd hr (by decide)

theorem rows_restoreEqual_forced (key : String) : ∀ (m : Menu) (vis vis' : Bool),
    List.Forall₂ (fun r r' => r.navId = some key → r'.forcedOpen)
      (rows vis m) (rows vis' (restoreEqual key m)) := by
  intro m
  induction m with
  | nil => intro vis vis'; simp [rows, restoreEqual]
  | leaf a r ih => intro vis vis'; simpa [rows, restoreEqual] using ih vis vis'
  | branch a i s c r ihc ihr =>
      intro vis vis'
      unfold restoreEqual
      split
      · simp only [rows]
        refine List.Forall₂.cons ?_ (List.rel_append ?_ (ihr _ _))
        · intro _
          exact ⟨rfl, rfl, rfl⟩
        · refine forall₂_chain ?_ _ _ _ (ihc (vis && s) (vis' && true))
            (rows_kept_of_grows _ _ _ _ (grows_expandIcons _) id)
          intro x y z hxy hyz hx
          exact forcedOpen_of_kept (hxy hx) hyz
      · rename_i hne
        simp only [rows]
        refine List.Forall₂.cons ?_ (List.rel_append (ihc _ _) (ihr _ _))
        intro ha
        simp only at ha
        simp [attrEquals, ha] at hne

theorem rows_restoreEqualAll_forced (s : String) : ∀ (texts : List String) (m : Menu),
    s ∈ texts →
    List.Forall₂ (fun r r' => r.navId = some s → r'.forcedOpen)
      (rows true m) (rows true (restoreEqualAll texts m)) := by
  intro texts
  induction texts with
  | nil => intro m h; simp at h
  | cons t ts ih =>
      intro m h
      show List.Forall₂ _ (rows true m) (rows true (restoreEqualAll ts (restoreEqual t m)))
      by_cases hst : s = t
      · subst hst
        refine forall₂_chain ?_ _ _ _ (rows_restoreEqual_forced s m true true)
          (rows_kept_of_grows _ _ _ _ (grows_restoreEqualAll ts _) id)
        intro x y z hxy hyz hx
        exact forcedOpen_of_kept (hxy hx) hyz
      · have hmem : s ∈ ts := by
          rcases List.mem_cons.mp h with h | h
          · exact absurd h hst
          · exact h
        refine forall₂_chain ?_ _ _ _
          (rows_kept_of_grows _ _ _ _ (grows_restoreEqual t m) id) (ih _ hmem)
        intro x y z hxy hyz hx
        exact hyz (hxy.1.trans hx)

theorem expandParents_of_noMatch (sel : Option String → Bool) (m : Menu)
    (h : hasMatch sel m = false) : expandParents sel m = m := by
  induction m with
  | nil => rfl
  | leaf a r ih =>
      simp only [hasMatch, Bool.or_eq_false_iff] at h
      simp [expandParents, ih h.2]
  | branch a i s c r ihc ihr =>
      simp only [hasMatch, Bool.or_eq_false_iff] at h
      obtain ⟨⟨_, hc⟩, hr⟩ := h
      simp [expandParents, hc, ihc hc, ihr hr]

theorem aboveMatch_of_noMatch (sel : Option String → Bool) : ∀ (m : Menu) (vis : Bool),
    hasMatch sel m = false →
    List.Forall₂ (fun above (_ : Row) => above = false) (aboveMatch sel m) (rows vis m) := by
  intro m
  induction m with
  | nil => intro vis _; simp [aboveMatch, rows]
  | leaf a r ih =>
      intro vis h
      simp only [hasMatch, Bool.or_eq_false_iff] at h
      simpa [aboveMatch, rows] using ih vis h.2
  | branch a i s c r ihc ihr =>
      intro vis h
      simp only [hasMatch, Bool.or_eq_false_iff] at h
      obtain ⟨⟨_, hc⟩, hr⟩ := h
      simp only [aboveMatch, rows]
      exact List.Forall₂.cons hc (List.rel_append (ihc _ hc) (ihr _ hr))

theorem rows_expandParents_above (sel : Option String → Bool) : ∀ (m : Menu) (vis : Bool),
    List.Forall₂ (fun above r => above = true → r.forcedOpen ∧ (vis = true → r.visible = true))
      (aboveMatch sel m) (rows vis (expandParents sel m)) := by
  intro m
  induction m with
  | nil => intro vis; simp [aboveMatch, rows, expandParents]
  | leaf a r ih => intro vis; simpa [aboveMatch, rows, expandParents] using ih vis
  | branch a i s c r ihc ihr =>
      intro vis
      by_cases hc : hasMatch sel c = true
      · simp only [aboveMatch, expandParents, hc, if_true, rows]
        refine List.Forall₂.cons ?_ (List.rel_append ?_ (ihr vis))
        · intro _
          exact ⟨⟨rfl, rfl, rfl⟩, fun hv => by simp [hv]⟩
        · refine forall₂_chain ?_ _ _ _ (ihc vis)
            (rows_kept_of_grows _ _ vis (vis && true) (grows_expandIcons _) (by simp))
          intro x y z hxy hyz hx
          obtain ⟨hopen, hvis⟩ := hxy hx
          exact ⟨forcedOpen_of_kept hopen hyz, fun hv => hyz.2.2.2.2.1 (hvis hv)⟩
      · have hc' : hasMatch sel c = false := by simpa using hc
        simp only [aboveMatch, expandParents, hc', rows, expandParents_of_noMatch sel c hc']
        refine List.Forall₂.cons (by simp) (List.rel_append ?_ (ihr vis))
        refine (aboveMatch_of_noMatch sel c _ hc').imp ?_
        intro above r hab h
        rw [hab] at h
        exact absurd h (by decide)

/-- C6: after `expandCurrentPath()` every has-children item that has an item
matching the current path below it shows its own list, which is visible, and
its own icon has the expanded class and not the collapsed one; storage is not
read.  In a three-level menu whose leaf matches, parent and grandparent both
end up so. -/
theorem expandCurrentPath_expands_ancestors (url : String) (dom : Menu) :
    List.Forall₂ (fun above r => above = true → r.forcedOpen ∧ r.visible = true)
        (aboveMatch (attrContains url) dom) (rows true (expandCurrentPath url dom)) ∧
      ∀ (g p l : Option String) (ig ip : Icon) (sg sp : Bool),
        attrContains url l = true →
        rows true (expandCurrentPath url
            (.branch g ig sg (.branch p ip sp (.leaf l .nil) .nil) .nil))
          = [{ navId := g, icon := ⟨true, false⟩, shown := true, visible := true,
               anyDown := true },
             { navId := p, icon := ⟨true, false⟩, shown := true, visible := true,
               anyDown := true }] := by
  constructor
  · have key := rows_expandParents_above (attrContains url) dom true
    by_cases h : hasMatch (attrContains url) dom = true
    · simp only [expandCurrentPath, h, if_true]
      refine key.imp ?_
      intro above r hab hx
      exact ⟨(hab hx).1, (hab hx).2 rfl⟩
    · have h' : hasMatch (attrContains url) dom = false := by simpa using h
      rw [expandParents_of_noMatch _ _ h'] at key
      simp only [expandCurrentPath, h', Bool.false_eq_true, if_false]
      refine key.imp ?_
      intro above r hab hx
      exact ⟨(hab hx).1, (hab hx).2 rfl⟩
  · intro g p l ig ip sg sp hl
    simp [expandCurrentPath, expandParents, expandIcons, hasMatch, rows, anyIconDown,
      Icon.expand, hl]

/-- Witness of C6: the page `/g/p/l/` in a collapsed three-level menu. -/
theorem expandCurrentPath_expands_ancestors_witness :
    attrContains "/g/p/l/" (some "/g/p/l/") = true ∧
      rows true (expandCurrentPath "/g/p/l/"
          (.branch (some "/g/") ⟨false, true⟩ false
            (.branch (some "/g/p/") ⟨false, true⟩ false (.leaf (some "/g/p/l/") .nil) .nil) .nil))
        = [{ navId := some "/g/", icon := ⟨true, false⟩, shown := true, visible := true,
             anyDown := true },
           { navId := some "/g/p/", icon := ⟨true, false⟩, shown := true, visible := true,
             anyDown := true }] :=
  ⟨by decide,
    (expandCurrentPath_expands_ancestors "/g/p/l/" threeLevel).2 (some "/g/") (some "/g/p/")
      (some "/g/p/l/") ⟨false, true⟩ ⟨false, true⟩ false false (by decide)⟩

/-! ## Save followed by restore -/

theorem expandIcons_restoreSet (hit : Option String → Bool) : ∀ (m : Menu) (under : Bool),
    expandIcons (restoreSet hit under m) = restoreSet hit true m := by
  intro m
  induction m with
  | nil => intro under; rfl
  | leaf a r ih => intro under; simp [restoreSet, expandIcons, ih under]
  | branch a i s c r ihc ihr =>
      intro under
      simp only [restoreSet, expandIcons, ihc, ihr, Bool.true_or, if_true]
      cases under <;> cases hit a <;> simp [Icon.expand]

theorem restoreEqual_eq_restoreSet (key : String) (m : Menu) :
    restoreEqual key m = restoreSet (attrEquals key) false m := by
  induction m with
  | nil => rfl
  | leaf a r ih => simp [restoreEqual, restoreSet, ih]
  | branch a i s c r ihc ihr =>
      unfold restoreEqual
      split
      · rename_i h
        simp [restoreSet, h, ihc, ihr, expandIcons_restoreSet]
      · rename_i h
        have h' : attrEquals key a = false := by simpa using h
        simp [restoreSet, h', ihc, ihr]

theorem expand_twice (i : Icon) (u₁ u₂ x y : Bool) :
    (if (u₂ || y) = true then (if (u₁ || x) = true then i.expand else i).expand
      else (if (u₁ || x) = true then i.expand else i))
      = if ((u₁ || u₂) || (x || y)) = true then i.expand else i := by
  cases u₁ <;> cases u₂ <;> cases x <;> cases y <;> simp [Icon.expand]

theorem or_interchange (u₁ u₂ x y : Bool) :
    ((u₁ || x) || (u₂ || y)) = ((u₁ || u₂) || (x || y)) := by
  cases u₁ <;> cases u₂ <;> cases x <;> cases y <;> rfl

theorem restoreSet_restoreSet (h₁ h₂ : Option String → Bool) : ∀ (m : Menu) (u₁ u₂ : Bool),
    restoreSet h₂ u₂ (restoreSet h₁ u₁ m) = restoreSet (fun a => h₁ a || h₂ a) (u₁ || u₂) m := by
  intro m
  induction m with
  | nil => intro u₁ u₂; rfl
  | leaf a r ih => intro u₁ u₂; simp [restoreSet, ih]
  | branch a i s c r ihc ihr =>
      intro u₁ u₂
      simp only [restoreSet, ihc, ihr, expand_twice, or_interchange]
      rw [Bool.or_assoc s]

theorem restoreSet_none (m : Menu) : restoreSet (fun _ => false) false m = m := by
  induction m with
  | nil => rfl
  | leaf a r ih => simp [restoreSet, ih]
  | branch a i s c r ihc ihr => simp [restoreSet, ihc, ihr]

theorem restoreEqualAll_restoreSet : ∀ (texts : List String) (hit : Option String → Bool)
    (m : Menu),
    restoreEqualAll texts (restoreSet hit false m)
      = restoreSet (fun a => hit a || texts.any (fun t => attrEquals t a)) false m := by
  intro texts
  induction texts with
  | nil => intro hit m; simp [restoreEqualAll]
  | cons t ts ih =>
      intro hit m
      show restoreEqualAll ts (restoreEqual t (restoreSet hit false m)) = _
      rw [restoreEqual_eq_restoreSet, restoreSet_restoreSet, Bool.or_self, ih]
      congr 1
      funext a
      simp [Bool.or_assoc]

theorem restoreEqualAll_eq_restoreSet (texts : List String) (m : Menu) :
    restoreEqualAll texts m
      = restoreSet (fun a => texts.any (fun t => attrEquals t a)) false m := by
  have h := restoreEqualAll_restoreSet texts (fun _ => false) m
  rw [restoreSet_none] at h
  simpa using h

theorem filter_map_pairs (g : Option String → Entry) (l : List Row) :
    (l.filter Row.expanded).map (fun r => g r.navId)
      = ((l.map (fun r => (r.navId, r.expanded))).filter (fun p => p.2)).map
          (fun p => g p.1) := by
  induction l with
  | nil => rfl
  | cons r l ih =>
      cases h : r.expanded <;> simp [List.filter_cons, h, ih]

theorem expandedMenus_of_rows (P : Platform) (d d' : Menu)
    (h : (rows true d).map (fun r => (r.navId, r.expanded))
      = (rows true d').map (fun r => (r.navId, r.expanded))) :
    expandedMenus P d = expandedMenus P d' := by
  unfold expandedMenus
  rw [filter_map_pairs, filter_map_pairs, h]

theorem rows_restoreSet_collapse (hit : Option String → Bool) :
    ∀ (m : Menu) (vis vis' under : Bool),
      (vis = true → anyIconDown m = true → vis' = true) →
      (∀ r ∈ rows vis m, hit r.navId = r.expanded) →
      (rows vis' (restoreSet hit under (collapse m))).map (fun r => (r.navId, r.expanded))
        = (rows vis m).map (fun r => (r.navId, r.expanded)) := by
  intro m
  induction m with
  | nil => intro vis vis' under _ _; rfl
  | leaf a r ih =>
      intro vis vis' under hv hrows
      simp only [collapse, restoreSet, rows]
      exact ih vis vis' under (fun h₁ h₂ => hv h₁ (by simpa [anyIconDown] using h₂))
        (fun x hx => hrows x (by simpa [rows] using hx))
  | branch a i s c r ihc ihr =>
      intro vis vis' under hv hrows
      have hhead : hit a = ((vis && s) && (i.down || anyIconDown c)) :=
        hrows { navId := a, icon := i, shown := s, visible := vis && s,
                anyDown := i.down || anyIconDown c } (by simp [rows])
      have hchildren := ihc (vis && s) (vis' && (false || hit a)) (under || hit a)
        (by
          intro h₁ h₂
          have hE : hit a = true := by rw [hhead, h₁, h₂]; simp
          have hvis : vis = true := by
            cases vis
            · simp at h₁
            · rfl
          have hv' := hv hvis (by simp [anyIconDown, h₂])
          simp [hE, hv'])
        (fun x hx => hrows x (by simp [rows, hx]))
      have hrest := ihr vis vis' under
        (fun h₁ h₂ => hv h₁ (by simp [anyIconDown, h₂]))
        (fun x hx => hrows x (by simp [rows, hx]))
      simp only [collapse, restoreSet, rows, List.map_cons, List.map_append, hchildren, hrest]
      congr 1
      simp only [Row.expanded, Prod.mk.injEq, true_and]
      cases hE : hit a
      · simp [← hhead, hE]
      · have hE' := hhead.symm.trans hE
        have hvis : vis = true := by
          cases vis
          · simp at hE'
          · rfl
        have hdown : anyIconDown (.branch a i s c r) = true := by
          simp only [Bool.and_eq_true, Bool.or_eq_true] at hE'
          simp only [anyIconDown, Bool.or_eq_true]
          exact Or.inl hE'.2
        simp [hv hvis hdown, hE', Icon.expand]

theorem navId_of_idsPlain (dom : Menu) (h : idsPlain dom = true) :
    ∀ r ∈ rows true dom, ∃ a, r.navId = some a ∧ plainId a = true := by
  intro r hr
  have hall := List.all_eq_true.mp h r hr
  cases hid : r.navId with
  | none => simp [hid] at hall
  | some a => exact ⟨a, rfl, by simpa [hid] using hall⟩

theorem expandedMenus_of_idsPlain (P : Platform) (dom : Menu) (h : idsPlain dom = true) :
    expandedMenus P dom
      = (((rows true dom).filter Row.expanded).map (fun r => r.navId.getD "")).map Entry.str := by
  unfold expandedMenus
  rw [List.map_map]
  apply List.map_congr_left
  intro r hr
  obtain ⟨a, ha, hp⟩ := navId_of_idsPlain dom h r (List.mem_of_mem_filter hr)
  have hs : staysString a = true := by
    simp only [plainId, Bool.and_eq_true] at hp
    exact hp.1
  simp [ha, dataEntry, hs]

theorem savedTexts_plain (dom : Menu) (h : idsPlain dom = true) :
    ∀ t ∈ ((rows true dom).filter Row.expanded).map (fun r => r.navId.getD ""),
      isPlain t = true := by
  intro t ht
  obtain ⟨r, hr, rfl⟩ := List.mem_map.mp ht
  obtain ⟨a, ha, hp⟩ := navId_of_idsPlain dom h r (List.mem_of_mem_filter hr)
  simp only [plainId, Bool.and_eq_true] at hp
  simpa [ha] using hp.2

theorem hit_iff_expanded (dom : Menu) (hids : idsPlain dom = true)
    (hunique : ((rows true dom).map Row.navId).Nodup) :
    ∀ r ∈ rows true dom,
      (((rows true dom).filter Row.expanded).map (fun r => r.navId.getD "")).any
          (fun t => attrEquals t r.navId) = r.expanded := by
  intro r hr
  obtain ⟨a, ha, _⟩ := navId_of_idsPlain dom hids r hr
  cases hexp : r.expanded
  · rw [List.any_eq_false]
    intro t ht
    obtain ⟨r₂, hr₂, rfl⟩ := List.mem_map.mp ht
    have hr₂' := List.mem_filter.mp hr₂
    obtain ⟨a₂, ha₂, _⟩ := navId_of_idsPlain dom hids r₂ hr₂'.1
    intro hEq
    have hid : r.navId = r₂.navId := by
      simpa [attrEquals, ha₂] using hEq
    have := List.inj_on_of_nodup_map hunique hr hr₂'.1 hid
    rw [this, hr₂'.2] at hexp
    exact absurd hexp (by decide)
  · rw [List.any_eq_true]
    refine ⟨a, ?_, ?_⟩
    · exact List.mem_map.mpr ⟨r, List.mem_filter.mpr ⟨hr, hexp⟩, by simp [ha]⟩
    · simp [attrEquals, ha]

/-! ## Properties of `restoreMenuState` and `expandCurrentPath` -/

/-- C2, as the code has it: a stored text that is not JSON and not empty makes
`restoreMenuState()` throw a `SyntaxError` before it touches the DOM, so no
item is expanded but the call does not return; only the empty text is taken
for the empty array. -/
theorem restoreMenuState_malformed_throws (P : Platform) (dom : Menu) :
    restoreMenuState P (some .malformed) dom = { dom := dom, thrown := some .syntaxError } ∧
      restoreMenuState P (some .blank) dom = { dom := dom, thrown := none } ∧
      restoreMenuState P (some (.array [])) dom = { dom := dom, thrown := none } :=
  ⟨rfl, rfl, rfl⟩

/-- C2 fails as stated: on a text that is not JSON the call does not behave as
on the empty array, it ends in an exception. -/
theorem restoreMenuState_malformed_not_as_empty :
    restoreMenuState quiet (some .malformed) (.leaf (some "/a/") .nil)
        = { dom := .leaf (some "/a/") .nil, thrown := some .syntaxError } ∧
      restoreMenuState quiet (some .malformed) (.leaf (some "/a/") .nil)
        ≠ restoreMenuState quiet (some (.array [])) (.leaf (some "/a/") .nil) := by
  decide

/-- C7, as the code has it: an identifier without double quote, backslash,
line break, form feed and NUL that no item carries is skipped: with it
inserted anywhere in the stored list `restoreMenuState()` ends as it ends
without it, with the same DOM and the same exception if there is one; a list
of such texts raises no exception, and when no item carries any of them the
DOM is left as it is. -/
theorem restoreMenuState_stale_identifier (P : Platform) (dom : Menu)
    (before after : List Entry) (x : String)
    (hplain : isPlain x = true) (hx : some x ∉ navIds dom) :
    restoreMenuState P (some (.array (before ++ Entry.str x :: after))) dom
        = restoreMenuState P (some (.array (before ++ after))) dom ∧
      (∀ texts : List String, (∀ t ∈ texts, isPlain t = true) →
        (restoreMenuState P (some (.array (texts.map Entry.str))) dom).thrown = none) ∧
      ∀ stale : List String, (∀ y ∈ stale, isPlain y = true ∧ some y ∉ navIds dom) →
        restoreMenuState P (some (.array (stale.map Entry.str))) dom
          = { dom := dom, thrown := none } := by
  refine ⟨restoreLoop_insert_stale P x after hplain before dom hx, ?_, ?_⟩
  · intro texts h
    show (restoreLoop P (texts.map Entry.str) dom).thrown = none
    rw [restoreLoop_str_plain P texts dom h]
  · intro stale h
    show restoreLoop P (stale.map Entry.str) dom = _
    rw [restoreLoop_str_plain P stale dom (fun y hy => (h y hy).1),
      restoreEqualAll_of_stale stale dom (fun y hy => (h y hy).2)]

/-- Witness of C7 (amended) on the collapsed three-level menu with the stale
identifier `/gone/` between two identifiers that items carry. -/
theorem restoreMenuState_stale_identifier_witness :
    isPlain "/gone/" = true ∧ some "/gone/" ∉ navIds threeLevel ∧
      restoreMenuState quiet
          (some (.array ([Entry.str "/g/"] ++ Entry.str "/gone/" :: [Entry.str "/g/p/"])))
          threeLevel
        = restoreMenuState quiet (some (.array ([Entry.str "/g/"] ++ [Entry.str "/g/p/"])))
            threeLevel :=
  ⟨by decide, by decide,
    (restoreMenuState_stale_identifier quiet threeLevel [Entry.str "/g/"] [Entry.str "/g/p/"]
      "/gone/" (by decide) (by decide)).1⟩

/-- C7 fails as stated: no item carries the identifier made of `a`, a double
quote and `b`, yet with it in the stored list `restoreMenuState()` throws at
line 25 and leaves `/g/p/` collapsed, which it expands without it. -/
theorem restoreMenuState_throws_on_quote :
    some "a\"b" ∉ navIds threeLevel ∧
      restoreMenuState quiet
          (some (.array [Entry.str "/g/", Entry.str "a\"b", Entry.str "/g/p/"])) threeLevel
        = { dom := .branch (some "/g/") ⟨true, false⟩ true
              (.branch (some "/g/p/") ⟨true, false⟩ false (.leaf (some "/g/p/l/") .nil) .nil)
              .nil,
            thrown := some .selectorError } ∧
      restoreMenuState quiet (some (.array [Entry.str "/g/", Entry.str "/g/p/"])) threeLevel
        = { dom := .branch (some "/g/") ⟨true, false⟩ true
              (.branch (some "/g/p/") ⟨true, false⟩ true (.leaf (some "/g/p/l/") .nil) .nil)
              .nil,
            thrown := none } := by
  decide

/-- C8: `restoreMenuState()` with any stored value and `expandCurrentPath()`
with any path keep every displayed list displayed, every visible list
visible and every expanded class in place, row by row, also when the first
ends in an exception; so what the first expanded is still expanded after the
second. -/
theorem restore_and_expandCurrentPath_only_expand (P : Platform) (storage : Storage)
    (url : String) (dom : Menu) :
    List.Forall₂ Row.Kept (rows true dom) (rows true (restoreMenuState P storage dom).dom) ∧
      List.Forall₂ Row.Kept (rows true dom) (rows true (expandCurrentPath url dom)) ∧
      List.Forall₂ Row.Kept (rows true (restoreMenuState P storage dom).dom)
        (rows true (expandCurrentPath url (restoreMenuState P storage dom).dom)) :=
  ⟨rows_kept_of_grows _ _ _ _ (grows_restoreMenuState P storage dom) id,
    rows_kept_of_grows _ _ _ _ (grows_expandCurrentPath url dom) id,
    rows_kept_of_grows _ _ _ _ (grows_expandCurrentPath url _) id⟩

/-- C9: without a value under `expandedMenus`, `restoreMenuState()` returns
and the DOM is the one it was called on. -/
theorem restoreMenuState_missing_key (P : Platform) (dom : Menu) :
    restoreMenuState P none dom = { dom := dom, thrown := none } :=
  rfl

/-- C10, as the code has it: for stored identifiers without double quote,
backslash, line break, form feed and NUL, `restoreMenuState()` selects by
equality of `data-nav-id` with the stored identifier: it returns, and every
has-children item whose identifier equals a stored one has its own list
displayed and its own icon with the expanded class and without the collapsed
one. -/
theorem restoreMenuState_expands_equal_ids (P : Platform) (texts : List String) (dom : Menu)
    (s : String) (hplain : ∀ t ∈ texts, isPlain t = true) (hs : s ∈ texts) :
    (restoreMenuState P (some (.array (texts.map Entry.str))) dom).thrown = none ∧
      List.Forall₂ (fun r r' => r.navId = some s → r'.forcedOpen)
        (rows true dom)
        (rows true (restoreMenuState P (some (.array (texts.map Entry.str))) dom).dom) := by
  have h : restoreMenuState P (some (.array (texts.map Entry.str))) dom
      = { dom := restoreEqualAll texts dom, thrown := none } :=
    restoreLoop_str_plain P texts dom hplain
  rw [h]
  exact ⟨rfl, rows_restoreEqualAll_forced s texts dom hs⟩

/-- Witness of C10 (amended): the stored identifier `/g/p/` and the item of
the collapsed three-level menu that carries exactly it. -/
theorem restoreMenuState_expands_equal_ids_witness :
    (∀ t ∈ ["/g/p/"], isPlain t = true) ∧ "/g/p/" ∈ ["/g/p/"] ∧
      List.Forall₂ (fun r r' => r.navId = some "/g/p/" → r'.forcedOpen)
        (rows true threeLevel)
        (rows true (restoreMenuState quiet (some (.array (["/g/p/"].map Entry.str)))
          threeLevel).dom) :=
  ⟨by decide, by decide,
    (restoreMenuState_expands_equal_ids quiet ["/g/p/"] threeLevel "/g/p/" (by decide)
      (by decide)).2⟩

/-- C10 fails as stated: the item `/docs/intro/` contains the stored
identifier `/docs/` but is not equal to it, and `restoreMenuState()` leaves it
collapsed; and for the stored text made of `a`, a double quote and `b`, the
item that carries exactly that text is not expanded either, line 25 throws. -/
theorem restoreMenuState_ignores_substring :
    (attrContains "/docs/" (some "/docs/intro/") = true ∧
      restoreMenuState quiet (some (.array [Entry.str "/docs/"]))
          (.branch (some "/docs/intro/") ⟨false, true⟩ false
            (.leaf (some "/docs/intro/a/") .nil) .nil)
        = { dom := .branch (some "/docs/intro/") ⟨false, true⟩ false
              (.leaf (some "/docs/intro/a/") .nil) .nil,
            thrown := none }) ∧
    (attrContains "a\"b" (some "a\"b") = true ∧
      restoreMenuState quiet (some (.array [Entry.str "a\"b"])) (collapse quoteId)
        = { dom := collapse quoteId, thrown := some .selectorError }) := by
  decide

/-! ## Save followed by restore -/

/-- C3, as the code has it: when every has-children item carries a
`data-nav-id` that begins with a letter or `/`, is none of `true`, `false`,
`null`, `NaN`, `Infinity`, and has no double quote, backslash, line break,
form feed or NUL, and no two of them carry the same, `saveMenuState()`
followed by `restoreMenuState()` on the same sidebar with every list hidden
and every icon collapsed returns, the items that pass the test of
`saveMenuState()` are then the same, row by row, and a second
`saveMenuState()` writes the same list in the same order. -/
theorem save_restore_roundtrip (P : Platform) (dom : Menu) (prior : Storage)
    (hids : idsPlain dom = true)
    (hunique : ((rows true dom).map Row.navId).Nodup) :
    (restoreMenuState P (saveMenuState P dom prior) (collapse dom)).thrown = none ∧
      (rows true (restoreMenuState P (saveMenuState P dom prior) (collapse dom)).dom).map
          (fun r => (r.navId, r.expanded))
        = (rows true dom).map (fun r => (r.navId, r.expanded)) ∧
      saveMenuState P (restoreMenuState P (saveMenuState P dom prior) (collapse dom)).dom
          (saveMenuState P dom prior)
        = saveMenuState P dom prior := by
  have hrun : restoreMenuState P (saveMenuState P dom prior) (collapse dom)
      = { dom := restoreEqualAll
            (((rows true dom).filter Row.expanded).map (fun r => r.navId.getD ""))
            (collapse dom),
          thrown := none } := by
    show restoreLoop P (expandedMenus P dom) (collapse dom) = _
    rw [expandedMenus_of_idsPlain P dom hids]
    exact restoreLoop_str_plain P _ _ (savedTexts_plain dom hids)
  have hrows : (rows true (restoreEqualAll
        (((rows true dom).filter Row.expanded).map (fun r => r.navId.getD ""))
        (collapse dom))).map (fun r => (r.navId, r.expanded))
      = (rows true dom).map (fun r => (r.navId, r.expanded)) := by
    rw [restoreEqualAll_eq_restoreSet]
    exact rows_restoreSet_collapse _ dom true true false (fun _ _ => rfl)
      (hit_iff_expanded dom hids hunique)
  rw [hrun]
  refine ⟨rfl, hrows, ?_⟩
  show some (StoredText.array (expandedMenus P _)) = some (StoredText.array (expandedMenus P dom))
  rw [expandedMenus_of_rows P _ _ hrows]

/-- Witness of C3 (amended) on a menu with two nested items expanded and a
third collapsed. -/
theorem save_restore_roundtrip_witness :
    idsPlain twoOpen = true ∧
      ((rows true twoOpen).map Row.navId).Nodup ∧
      expandedMenus quiet twoOpen = [Entry.str "/g/", Entry.str "/g/p/"] ∧
      saveMenuState quiet
          (restoreMenuState quiet (saveMenuState quiet twoOpen none) (collapse twoOpen)).dom
          (saveMenuState quiet twoOpen none)
        = saveMenuState quiet twoOpen none :=
  ⟨by decide, by decide, by decide,
    (save_restore_roundtrip quiet twoOpen none (by decide) (by decide)).2.2⟩

/-- C3 fails as stated, in four ways.  An expanded item without `data-nav-id`
is saved as `null` and not expanded again.  Of two items with the same
identifier the collapsed one comes back expanded.  An expanded item whose
identifier is the text of an empty object is saved as that object, looked up
as `[object Object]` and not expanded again.  An expanded item whose
identifier holds a double quote is saved, and the restore throws at line 25. -/
theorem save_restore_not_roundtrip :
    (expandedMenus quiet withoutId = [Entry.null] ∧
      restoreMenuState quiet (saveMenuState quiet withoutId none) (collapse withoutId)
        = { dom := collapse withoutId, thrown := none } ∧
      expandedMenus quiet (collapse withoutId) = []) ∧
    (expandedMenus quiet sameId = [Entry.str "/a/"] ∧
      expandedMenus quiet
          (restoreMenuState quiet (saveMenuState quiet sameId none) (collapse sameId)).dom
        = [Entry.str "/a/", Entry.str "/a/"]) ∧
    (expandedMenus quiet braceId = [Entry.other "[object Object]"] ∧
      restoreMenuState quiet (saveMenuState quiet braceId none) (collapse braceId)
        = { dom := collapse braceId, thrown := none } ∧
      expandedMenus quiet (collapse braceId) = []) ∧
    (expandedMenus quiet quoteId = [Entry.str "a\"b"] ∧
      restoreMenuState quiet (saveMenuState quiet quoteId none) (collapse quoteId)
        = { dom := collapse quoteId, thrown := some .selectorError }) := by
  decide

/-! ## The nested icons -/

/-- C1 at its failing inputs: on the collapsed three-level menu, which is in
sync, `restoreMenuState()` with the stored list `["/g/"]` gives `/g/p/` the
expanded class while its list stays hidden; on the menu with two sections
`expandCurrentPath()` for `/g/p/l/` does the same to `/g/q/`. -/
theorem sync_broken_by_restore_and_expandCurrentPath (P : Platform) :
    (Synced threeLevel = true ∧
      restoreMenuState P (some (.array [Entry.str "/g/"])) threeLevel
        = { dom := .branch (some "/g/") ⟨true, false⟩ true
              (.branch (some "/g/p/") ⟨true, false⟩ false (.leaf (some "/g/p/l/") .nil) .nil)
              .nil,
            thrown := none } ∧
      Synced (restoreMenuState P (some (.array [Entry.str "/g/"])) threeLevel).dom = false) ∧
    (Synced twoSections = true ∧
      expandCurrentPath "/g/p/l/" twoSections
        = .branch (some "/g/") ⟨true, false⟩ true
            (.branch (some "/g/p/") ⟨true, false⟩ true (.leaf (some "/g/p/l/") .nil)
              (.branch (some "/g/q/") ⟨true, false⟩ false (.leaf (some "/g/q/l/") .nil) .nil))
            .nil ∧
      Synced (expandCurrentPath "/g/p/l/" twoSections) = false) :=
  ⟨⟨by decide, rfl, rfl⟩, by decide⟩

/-- C4 at its failing input: after the page load with the stored list
`["/g/"]` and a click on the icon of `/g/p/`, that icon carries the collapsed
class and not the expanded one, and `saveMenuState()` lists `/g/p/` all the
same, because the icon of `/g/p/c/` inside it carries the expanded class. -/
theorem saveMenuState_lists_collapsed_icon (P : Platform) :
    pageLoad P "/other/" { dom := fourLevel, storage := some (.array [Entry.str "/g/"]) }
        = { page := { dom := restoreEqualAll ["/g/"] fourLevel,
                      storage := some (.array [Entry.str "/g/"]) },
            thrown := none } ∧
      (click P 1 { dom := restoreEqualAll ["/g/"] fourLevel,
                   storage := some (.array [Entry.str "/g/"]) }).dom
        = .branch (some "/g/") ⟨true, false⟩ true
            (.branch (some "/g/p/") ⟨false, true⟩ true
              (.branch (some "/g/p/c/") ⟨true, false⟩ false (.leaf (some "/g/p/c/l/") .nil) .nil)
              .nil) .nil ∧
      saveMenuState P (click P 1 { dom := restoreEqualAll ["/g/"] fourLevel,
                                   storage := some (.array [Entry.str "/g/"]) }).dom none
        = some (.array [Entry.str "/g/", Entry.str "/g/p/"]) :=
  ⟨rfl, rfl, rfl⟩

/-- C5 at its failing input: a click on the icon of `/g/` in the collapsed
three-level menu saves the list `["/g/"]`; after the next page load with that
list the item `/g/p/` is shown in the sidebar with its list hidden; one click
on its icon leaves the list visible, the icon with the collapsed class, and
`/g/p/` absent from the saved list. -/
theorem click_on_collapsed_item_shows_collapsed_icon (P : Platform) :
    (click P 0 { dom := threeLevel, storage := none }).storage
        = some (.array [Entry.str "/g/"]) ∧
      pageLoad P "/other/" { dom := threeLevel, storage := some (.array [Entry.str "/g/"]) }
        = { page := { dom := restoreEqualAll ["/g/"] threeLevel,
                      storage := some (.array [Entry.str "/g/"]) },
            thrown := none } ∧
      rows true (restoreEqualAll ["/g/"] threeLevel)
        = [{ navId := some "/g/", icon := ⟨true, false⟩, shown := true, visible := true,
             anyDown := true },
           { navId := some "/g/p/", icon := ⟨true, false⟩, shown := false, visible := false,
             anyDown := true }] ∧
      rows true (click P 1 { dom := restoreEqualAll ["/g/"] threeLevel,
                             storage := some (.array [Entry.str "/g/"]) }).dom
        = [{ navId := some "/g/", icon := ⟨true, false⟩, shown := true, visible := true,
             anyDown := true },
           { navId := some "/g/p/", icon := ⟨false, true⟩, shown := true, visible := true,
             anyDown := false }] ∧
      (click P 1 { dom := restoreEqualAll ["/g/"] threeLevel,
                   storage := some (.array [Entry.str "/g/"]) }).storage
        = some (.array [Entry.str "/g/"]) :=
  ⟨rfl, rfl, by decide, rfl, rfl⟩

end MenuPersistence
